import Mathlib

/-!
Verification development for the digital CO2 footprint estimator.

The emissions engine (`calculator.py`) and the assumptions store
(`loader.py`) are shallowly embedded here.  Python floats become exact
rationals (ℚ); Python dicts whose iteration order matters become
association lists `List (String × ℚ)`; the breakdown dictionary, which is
only ever read back by key, becomes a function `String → Option ℚ` built by
successive overwriting inserts (the function model checks the most recent
insert first, exactly like a Python dict lookup after repeated
assignments).  Fallible dict indexing (`d[k]`, which raises `KeyError` in
Python) becomes `Option`; the engine as a whole returns `Option`, with
`none` standing for "an exception escaped".
-/

/-- A Python dict of string keys to numbers, kept in insertion order. -/
abbrev SMap := List (String × ℚ)

/-- `m[k]` of Python: first match wins (a dict cannot hold duplicate
keys, so on dict-shaped lists this is the unique match). -/
def findVal (m : SMap) (k : String) : Option ℚ :=
  match m with
  | [] => none
  | p :: rest => if k = p.1 then some p.2 else findVal rest k

/-- `m.get(k, d)` of Python: lookup with a default. -/
def getD (m : SMap) (k : String) (d : ℚ) : ℚ := (findVal m k).getD d

/-- `list(m.keys())` of Python. -/
def keys (m : SMap) : List String := m.map Prod.fst

/-- The sum of a dict's values, `sum(m.values())`. -/
def sumVals (m : SMap) : ℚ := (m.map Prod.snd).sum

/-- The breakdown dictionary: a lookup function built by overwriting inserts. -/
abbrev DMap := String → Option ℚ

/-- The empty breakdown dictionary. -/
def DMap.empty : DMap := fun _ => none

/-- `m[k] = v` on a Python dict: later inserts shadow earlier ones. -/
def DMap.insert (m : DMap) (k : String) (v : ℚ) : DMap :=
  fun q => if q = k then some v else m q

/-- Insert a batch of key/value pairs in order. -/
def DMap.insertMany (m : DMap) (l : List (String × ℚ)) : DMap :=
  match l with
  | [] => m
  | p :: t => DMap.insertMany (m.insert p.1 p.2) t

/-- Per-row inserts of a Python `for` loop that writes several
breakdown keys on each iteration. -/
def insertRows (f : α → List (String × ℚ)) (rows : List α) (m : DMap) : DMap :=
  match rows with
  | [] => m
  | r :: t => insertRows f t (m.insertMany (f r))

/-- The configuration aggregate of `loader.Assumptions`, restricted to the
fields `calculator.py` reads (spec section 3).  Field names are the YAML
keys the Python code accesses via `assumptions["..."]`. -/
structure Assumptions where
  device_percent : SMap
  fixed_network_percent : SMap
  fixed_network_resolution_percent : SMap
  mobile_network_resolution_percent : SMap
  device_production_kg_co2e : SMap
  device_lifetime_hours : SMap
  device_watts : SMap
  co2e_per_kWh : ℚ
  network_kwh_per_gb : SMap
  network_kwh_per_user_per_hour : SMap
  datacenter_kg_co2e : SMap
  video_bitrate_GB_per_hour : SMap
  co2e_offsetting : SMap
  hours_input : ℚ

/-- `{k: v / 100.0 for k, v in m.items()}` — percents to raw fractions
(calculator.py lines 41-43, 51-54, 75-77). -/
def percentShares (m : SMap) : SMap := m.map (fun p => (p.1, p.2 / 100))

/-- Resolution-mix normalization (calculator.py lines 41-60): convert to
fractions and, when the fraction sum is positive, renormalize; a
non-positive sum leaves the raw fractions unchanged. -/
def resolutionShares (m : SMap) : SMap :=
  let share := percentShares m
  let tot := sumVals share
  if 0 < tot then share.map (fun p => (p.1, p.2 / tot)) else share

/-- Device-share normalization (calculator.py lines 74-85): like
`resolutionShares` but a non-positive sum zeroes every fraction. -/
def deviceShares (m : SMap) : SMap :=
  let share := percentShares m
  let tot := sumVals share
  if 0 < tot then share.map (fun p => (p.1, p.2 / tot))
  else share.map (fun p => (p.1, 0))

/-- `sum(share[key] * bitrate[key] for key in bitrate)` (calculator.py
lines 62-69); the direct index `share[key]` can raise `KeyError`, hence
`Option`. -/
def sumTerms (share : SMap) : SMap → Option ℚ
  | [] => some 0
  | p :: rest => do
      let s ← findVal share p.1
      let acc ← sumTerms share rest
      return s * p.2 + acc

/-- `min(1.0, max(0.0, x))`. -/
def clamp01 (x : ℚ) : ℚ := min 1 (max 0 x)

/-- Per-device fixed-network fraction, clamped (calculator.py lines 90-95). -/
def fixedShareByDevice (m : SMap) : SMap :=
  m.map (fun p => (p.1, clamp01 (p.2 / 100)))

/-- `total_share_fixed` before clamping (calculator.py lines 96-99):
sum over devices of usage fraction times per-device fixed fraction,
`.get(d, 0.0)` defaulting to 0. -/
def totalShareFixedRaw (devFrac fixedByDev : SMap) : ℚ :=
  (devFrac.map (fun p => p.2 * getD fixedByDev p.1 0)).sum

/-- The aggregate (fixed, mobile) network share pair (calculator.py lines
96-105): clamp the fixed share to [0,1], floor the mobile complement at 0,
and renormalize the pair when its sum is positive. -/
def networkShares (devFrac fixedByDev : SMap) : ℚ × ℚ :=
  let f := clamp01 (totalShareFixedRaw devFrac fixedByDev)
  let mob := max 0 (1 - f)
  let s := f + mob
  if 0 < s then (f / s, mob / s) else (f, mob)

/-- `max(1.0, lifetime.get(device, 1.0))` (calculator.py line 113). -/
def flife (life : SMap) (dev : String) : ℚ := max 1 (getD life dev 1)

/-- Per-device production amortization rows (calculator.py lines 110-121):
usage fraction times production kg over floored lifetime. -/
def devProdRows (devFrac prodMap life : SMap) : SMap :=
  devFrac.map (fun p => (p.1, p.2 * (getD prodMap p.1 0 / flife life p.1)))

/-- One device's electricity row (calculator.py lines 129-144). -/
structure EnergyRow where
  name : String
  kwh : ℚ
  co2 : ℚ

/-- Per-device electricity rows: `kwh = frac * watts/1000`,
`co2 = kwh * co2e_per_kWh`. -/
def devEnergyRows (devFrac watts : SMap) (co2eKwh : ℚ) : List EnergyRow :=
  devFrac.map (fun p =>
    { name := p.1
      kwh := p.2 * (getD watts p.1 0 / 1000)
      co2 := p.2 * (getD watts p.1 0 / 1000) * co2eKwh })

/-- One iteration of the network loop (calculator.py lines 168-194). -/
structure NetRow where
  name : String
  a : ℚ
  b : ℚ
  gb : ℚ
  share : ℚ
  kwhW : ℚ
  co2W : ℚ

/-- One network's computation: the `a` and `b` coefficients come from their
dicts, while `gb_per_hour_by_network[network]` and
`network_share[network]` index two-key literal dicts, raising `KeyError`
for any network name other than "fixed"/"mobile". -/
def netRow (aM bM : SMap) (gbF gbM fSh mSh co2eKwh : ℚ) (net : String) :
    Option NetRow := do
  let a ← findVal aM net
  let b ← findVal bM net
  let gb ← if net = "fixed" then some gbF else
           if net = "mobile" then some gbM else none
  let sh ← if net = "fixed" then some fSh else
           if net = "mobile" then some mSh else none
  let kwhW := (a * gb + b) * sh
  return ⟨net, a, b, gb, sh, kwhW, kwhW * co2eKwh⟩

/-- The network `for` loop over `network_keys` (calculator.py line 163). -/
def netRows (aM bM : SMap) (gbF gbM fSh mSh co2eKwh : ℚ) :
    List String → Option (List NetRow)
  | [] => some []
  | net :: rest => do
      let r ← netRow aM bM gbF gbM fSh mSh co2eKwh net
      let rs ← netRows aM bM gbF gbM fSh mSh co2eKwh rest
      return r :: rs

/-- Everything `compute_total_kg_co2e` extracts through fallible dict
indexing, plus the pure shares it derives on the way. -/
structure EngineInputs where
  gbF : ℚ
  gbM : ℚ
  devFrac : SMap
  fSh : ℚ
  mSh : ℚ
  rows : List NetRow
  dcPerGB : ℚ
  dcPerHour : ℚ

/-- The fallible front half of `compute_total_kg_co2e`: resolution and
device share normalization, GB/h derivation, aggregate network shares, the
network loop, and the two datacenter coefficient lookups (calculator.py
lines 41-107, 163-199). -/
def computeOpt (a : Assumptions) : Option EngineInputs := do
  let fixRes := resolutionShares a.fixed_network_resolution_percent
  let mobRes := resolutionShares a.mobile_network_resolution_percent
  let gbF ← sumTerms fixRes a.video_bitrate_GB_per_hour
  let gbM ← sumTerms mobRes a.video_bitrate_GB_per_hour
  let devFrac := deviceShares a.device_percent
  let fbd := fixedShareByDevice a.fixed_network_percent
  let ns := networkShares devFrac fbd
  let rows ← netRows a.network_kwh_per_gb a.network_kwh_per_user_per_hour
      gbF gbM ns.1 ns.2 a.co2e_per_kWh (keys a.network_kwh_per_gb)
  let c ← findVal a.datacenter_kg_co2e "per_GB"
  let d ← findVal a.datacenter_kg_co2e "per_hour"
  return ⟨gbF, gbM, devFrac, ns.1, ns.2, rows, c, d⟩

/-- The engine's result: the role label plus the numeric breakdown dict. -/
structure Breakdown where
  role : String
  vals : DMap

/-- The pure back half of `compute_total_kg_co2e` (calculator.py lines
109-276): device production and electricity, the network and datacenter
totals, annualization, and the breakdown dict in source insertion order.
The Python `role` string is stored in `Breakdown.role`; every numeric
entry goes through `Breakdown.vals`. -/
def computeCore (role : String) (i : EngineInputs)
    (prodMap life watts : SMap) (co2eKwh hoursInput : ℚ) :
    ℚ × ℚ × Breakdown :=
  let role := (if role = "" then "producer" else role).toLower
  let prodRows := devProdRows i.devFrac prodMap life
  let prodTot := sumVals prodRows
  let eRows := devEnergyRows i.devFrac watts co2eKwh
  let energyKwhTot := (eRows.map EnergyRow.kwh).sum
  let energyCo2Tot := (eRows.map EnergyRow.co2).sum
  let netKwhTot := (i.rows.map NetRow.kwhW).sum
  let netCo2Tot := (i.rows.map NetRow.co2W).sum
  let gbW := i.fSh * i.gbF + i.mSh * i.gbM
  let dcTransfer := i.dcPerGB * gbW
  let dcTot := dcTransfer + i.dcPerHour
  let hpy := hoursInput * 52
  let usagePerHour := energyCo2Tot + netCo2Tot + dcTot
  let withProdPerHour := prodTot + usagePerHour
  let usage := usagePerHour * hpy
  let withProd := withProdPerHour * hpy
  let m := DMap.empty
  let m := m.insert "gb_per_hour_fixed" i.gbF
  let m := m.insert "gb_per_hour_mobile" i.gbM
  let m := m.insert "network_share_fixed" (i.fSh * 100)
  let m := m.insert "network_share_mobile" (i.mSh * 100)
  let m := insertRows (fun p : String × ℚ =>
    [("device_production_co2_per_video_hour_by_device_" ++ p.1, p.2)]) prodRows m
  let m := m.insert "device_production_co2_per_video_hour_total" prodTot
  let m := insertRows (fun r : EnergyRow =>
    [("device_energy_kwh_per_video_hour_by_device_" ++ r.name, r.kwh),
     ("device_energy_co2_per_video_hour_by_device_" ++ r.name, r.co2)]) eRows m
  let m := m.insert "device_energy_kwh_per_video_hour_total" energyKwhTot
  let m := m.insert "device_energy_co2_per_video_hour_total" energyCo2Tot
  let m := m.insert "device_production_co2_per_video_hour_total_plus_energy"
      (prodTot + energyCo2Tot)
  let m := insertRows (fun r : NetRow =>
    [("network_a_kwh_per_gb_" ++ r.name, r.a),
     ("network_b_kwh_per_user_hour_" ++ r.name, r.b),
     ("network_gb_per_hour_" ++ r.name, r.gb),
     ("network_kwh_per_video_hour_" ++ r.name, r.kwhW),
     ("network_co2_per_video_hour_" ++ r.name, r.co2W)]) i.rows m
  let m := m.insert "gb_per_hour_total_weighted" gbW
  let m := m.insert "datacenter_co2_per_video_hour_transfer" dcTransfer
  let m := m.insert "datacenter_co2_per_video_hour_runtime" i.dcPerHour
  let m := m.insert "datacenter_co2_per_video_hour_total" dcTot
  let m := m.insert "hours_input" hoursInput
  let m := m.insert "hours_input_year" hpy
  let m := m.insert "network_kwh_per_video_hour_total" netKwhTot
  let m := m.insert "network_co2_per_video_hour_total" netCo2Tot
  let m := m.insert "kg_per_video_hour_total" withProdPerHour
  let m := m.insert "kg_per_video_hour_usage_only" usagePerHour
  let m := m.insert "total_kg_co2e" withProd
  let m := m.insert "total_kg_co2e_usage_only" usage
  let m := m.insert "production_co2_total" (prodTot * hpy)
  let m := m.insert "device_energy_co2_total" (energyCo2Tot * hpy)
  let m := m.insert "network_co2_total" (netCo2Tot * hpy)
  let m := m.insert "datacenter_co2_total" (dcTot * hpy)
  (usage, withProd, ⟨role, m⟩)

/-- `compute_total_kg_co2e(assumptions, role)` of calculator.py:
`none` models an escaping exception. -/
def compute_total_kg_co2e (a : Assumptions) (role : String) :
    Option (ℚ × ℚ × Breakdown) :=
  (computeOpt a).map (fun i =>
    computeCore role i a.device_production_kg_co2e a.device_lifetime_hours
      a.device_watts a.co2e_per_kWh a.hours_input)

/-- `calculate_co2e_offsetting(total_kg_co2e, co2e_offsetting)` of
calculator.py lines 279-295: keep actions with positive saving, each
mapped to `total / saving`. -/
def calculate_co2e_offsetting (total : ℚ) : SMap → SMap
  | [] => []
  | p :: rest =>
      if 0 < p.2 then (p.1, total / p.2) :: calculate_co2e_offsetting total rest
      else calculate_co2e_offsetting total rest

/-- A breakdown value with Python's "absent" collapsed to 0, for stating
arithmetic about entries whose presence is asserted separately. -/
def bval (b : Breakdown) (k : String) : ℚ := (b.vals k).getD 0

/-- The shape constraints spec section 3 imposes and the engine's direct
dict indexing relies on: every bitrate resolution appears in both
resolution mixes, every network key appears in the b-coefficient dict and
is one of the two literal network names, and the datacenter dict has both
coefficients. -/
def WellFormed (a : Assumptions) : Prop :=
  (∀ k ∈ keys a.video_bitrate_GB_per_hour,
     k ∈ keys a.fixed_network_resolution_percent) ∧
  (∀ k ∈ keys a.video_bitrate_GB_per_hour,
     k ∈ keys a.mobile_network_resolution_percent) ∧
  (∀ k ∈ keys a.network_kwh_per_gb,
     k ∈ keys a.network_kwh_per_user_per_hour) ∧
  (∀ k ∈ keys a.network_kwh_per_gb, k = "fixed" ∨ k = "mobile") ∧
  "per_GB" ∈ keys a.datacenter_kg_co2e ∧
  "per_hour" ∈ keys a.datacenter_kg_co2e

instance (a : Assumptions) : Decidable (WellFormed a) := by
  unfold WellFormed; infer_instance

/-- Non-negativity of every numeric input, the "non-NaN and non-negative
where required" precondition of the spec (NaN is not representable in ℚ). -/
def Nonneg (a : Assumptions) : Prop :=
  (∀ p ∈ a.device_percent, 0 ≤ p.2) ∧
  (∀ p ∈ a.fixed_network_percent, 0 ≤ p.2) ∧
  (∀ p ∈ a.fixed_network_resolution_percent, 0 ≤ p.2) ∧
  (∀ p ∈ a.mobile_network_resolution_percent, 0 ≤ p.2) ∧
  (∀ p ∈ a.device_production_kg_co2e, 0 ≤ p.2) ∧
  (∀ p ∈ a.device_lifetime_hours, 0 ≤ p.2) ∧
  (∀ p ∈ a.device_watts, 0 ≤ p.2) ∧
  0 ≤ a.co2e_per_kWh ∧
  (∀ p ∈ a.network_kwh_per_gb, 0 ≤ p.2) ∧
  (∀ p ∈ a.network_kwh_per_user_per_hour, 0 ≤ p.2) ∧
  (∀ p ∈ a.datacenter_kg_co2e, 0 ≤ p.2) ∧
  (∀ p ∈ a.video_bitrate_GB_per_hour, 0 ≤ p.2) ∧
  0 ≤ a.hours_input

instance (a : Assumptions) : Decidable (Nonneg a) := by
  unfold Nonneg; infer_instance

/-- A small but fully exercised concrete configuration, used to witness
the conditional theorems on a live input. -/
def exA : Assumptions where
  device_percent := [("computer", 50), ("tv", 50)]
  fixed_network_percent := [("computer", 100), ("tv", 0)]
  fixed_network_resolution_percent := [("1080p", 100)]
  mobile_network_resolution_percent := [("1080p", 100)]
  device_production_kg_co2e := [("computer", 200), ("tv", 400)]
  device_lifetime_hours := [("computer", 1000), ("tv", 2000)]
  device_watts := [("computer", 100), ("tv", 50)]
  co2e_per_kWh := 1/10
  network_kwh_per_gb := [("fixed", 1/1000), ("mobile", 1/100)]
  network_kwh_per_user_per_hour := [("fixed", 1/100), ("mobile", 1/100)]
  datacenter_kg_co2e := [("per_GB", 1/1000), ("per_hour", 1/2000)]
  video_bitrate_GB_per_hour := [("1080p", 2)]
  co2e_offsetting := [("tree", 25)]
  hours_input := 10

lemma sumVals_map_snd (m : SMap) (g : String × ℚ → ℚ) :
    sumVals (m.map (fun p => (p.1, g p))) = (m.map g).sum := by
  induction m with
  | nil => rfl
  | cons p t ih => simpa [sumVals] using congrArg (g p + ·) ih

lemma list_sum_map_div (l : List ℚ) (c : ℚ) :
    (l.map (fun x => x / c)).sum = l.sum / c := by
  induction l with
  | nil => simp
  | cons h t ih => simp [add_div, ih]

lemma sumVals_percentShares (m : SMap) :
    sumVals (percentShares m) = sumVals m / 100 := by
  unfold percentShares
  rw [sumVals_map_snd]
  have : m.map (fun p => p.2 / 100) =
      (m.map Prod.snd).map (fun x => x / 100) := by
    rw [List.map_map]; rfl
  rw [this, list_sum_map_div, sumVals]

lemma sumVals_normalize (share : SMap) (ht : sumVals share ≠ 0) :
    sumVals (share.map (fun p => (p.1, p.2 / sumVals share))) = 1 := by
  rw [sumVals_map_snd]
  have : share.map (fun p => p.2 / sumVals share) =
      (share.map Prod.snd).map (fun x => x / sumVals share) := by
    rw [List.map_map]; rfl
  rw [this, list_sum_map_div, ← sumVals, div_self ht]

/-- C5: for every percent mapping with non-negative entries and strictly
positive sum, the usage fractions the engine derives — each percent
divided by 100, then renormalized by the group sum — sum to exactly 1 in
exact arithmetic, for the device group and for a resolution group alike. -/
theorem shares_renormalize_to_one (m : SMap)
    (hnn : ∀ p ∈ m, 0 ≤ p.2) (hpos : 0 < sumVals m) :
    sumVals (deviceShares m) = 1 ∧ sumVals (resolutionShares m) = 1 := by
  have htot : sumVals (percentShares m) = sumVals m / 100 :=
    sumVals_percentShares m
  have hpos' : 0 < sumVals (percentShares m) := by
    rw [htot]; positivity
  have hne : sumVals (percentShares m) ≠ 0 := ne_of_gt hpos'
  constructor
  · unfold deviceShares
    rw [if_pos hpos']
    exact sumVals_normalize _ hne
  · unfold resolutionShares
    rw [if_pos hpos']
    exact sumVals_normalize _ hne

/-- Witness for `shares_renormalize_to_one` on a mapping whose raw
percents sum to 140, not 100. -/
theorem shares_renormalize_to_one_witness :
    (∀ p ∈ ([("computer", 60), ("tv", 80)] : SMap), 0 ≤ p.2) ∧
    0 < sumVals [("computer", 60), ("tv", 80)] ∧
    sumVals (deviceShares [("computer", 60), ("tv", 80)]) = 1 ∧
    sumVals (resolutionShares [("computer", 60), ("tv", 80)]) = 1 :=
  ⟨by simp, by norm_num [sumVals],
    shares_renormalize_to_one [("computer", 60), ("tv", 80)]
      (by simp) (by norm_num [sumVals])⟩

/-- C6: an all-zero percent group yields all-zero derived fractions, for
the device group and for a resolution group alike; in exact rational
arithmetic no division by zero and no NaN can arise. -/
theorem zero_sum_group_gives_zero_fractions (m : SMap)
    (h : ∀ p ∈ m, p.2 = 0) :
    (∀ p ∈ deviceShares m, p.2 = 0) ∧ (∀ p ∈ resolutionShares m, p.2 = 0) := by
  have hshare : ∀ p ∈ percentShares m, p.2 = 0 := by
    intro p hp
    unfold percentShares at hp
    obtain ⟨q, hq, rfl⟩ := List.mem_map.mp hp
    simp [h q hq]
  have htot : sumVals (percentShares m) = 0 := by
    unfold sumVals
    rw [List.sum_eq_zero]
    intro x hx
    obtain ⟨q, hq, rfl⟩ := List.mem_map.mp hx
    exact hshare q hq
  have hnpos : ¬ 0 < sumVals (percentShares m) := by rw [htot]; exact lt_irrefl 0
  constructor
  · unfold deviceShares
    rw [if_neg hnpos]
    intro p hp
    obtain ⟨q, _, rfl⟩ := List.mem_map.mp hp
    rfl
  · unfold resolutionShares
    rw [if_neg hnpos]
    exact hshare

/-- Witness for `zero_sum_group_gives_zero_fractions`. -/
theorem zero_sum_group_gives_zero_fractions_witness :
    (∀ p ∈ ([("computer", 0), ("tv", 0)] : SMap), p.2 = 0) ∧
    (∀ p ∈ deviceShares [("computer", 0), ("tv", 0)], p.2 = 0) ∧
    (∀ p ∈ resolutionShares [("computer", 0), ("tv", 0)], p.2 = 0) :=
  ⟨by decide,
    zero_sum_group_gives_zero_fractions [("computer", 0), ("tv", 0)]
      (by decide)⟩

lemma clamp01_nonneg (x : ℚ) : 0 ≤ clamp01 x :=
  le_min zero_le_one (le_max_left 0 x)

lemma clamp01_le_one (x : ℚ) : clamp01 x ≤ 1 := min_le_left 1 _

lemma networkShares_sum (devFrac fbd : SMap) :
    (networkShares devFrac fbd).1 + (networkShares devFrac fbd).2 = 1 := by
  unfold networkShares
  set f := clamp01 (totalShareFixedRaw devFrac fbd) with hf
  have hf1 : f ≤ 1 := clamp01_le_one _
  have hmob : max 0 (1 - f) = 1 - f := max_eq_right (by linarith)
  simp only [hmob]
  have hsum : f + (1 - f) = 1 := by ring
  rw [hsum, if_pos one_pos]
  push_cast
  ring

lemma keys_offsetting_subset (total : ℚ) (tbl : SMap) (k : String)
    (h : k ∈ keys (calculate_co2e_offsetting total tbl)) : k ∈ keys tbl := by
  induction tbl with
  | nil => simpa [calculate_co2e_offsetting] using h
  | cons p rest ih =>
    rw [calculate_co2e_offsetting] at h
    by_cases hpos : 0 < p.2
    · rw [if_pos hpos] at h
      rcases List.mem_cons.mp h with h1 | h2
      · exact List.mem_cons.mpr (Or.inl h1)
      · exact List.mem_cons.mpr (Or.inr (ih h2))
    · rw [if_neg hpos] at h
      exact List.mem_cons.mpr (Or.inr (ih h))

lemma findVal_eq_none_of_not_mem_keys (m : SMap) (k : String)
    (h : k ∉ keys m) : findVal m k = none := by
  induction m with
  | nil => rfl
  | cons p rest ih =>
    rw [keys, List.map_cons] at h
    simp only [List.mem_cons, not_or] at h
    rw [findVal, if_neg h.1]
    exact ih h.2

/-- C8: the offsetting table's lookup semantics — an action appears in the
result exactly when its saving-per-unit is strictly positive, and then
maps to `total / saving`; non-positive savings are skipped, so no division
by zero happens and nothing is raised. -/
theorem offsetting_skips_nonpositive_and_divides (total : ℚ) (tbl : SMap)
    (hnd : (keys tbl).Nodup) (action : String) :
    findVal (calculate_co2e_offsetting total tbl) action =
      (findVal tbl action).bind
        (fun s => if 0 < s then some (total / s) else none) := by
  induction tbl with
  | nil => simp [calculate_co2e_offsetting, findVal]
  | cons p rest ih =>
    rw [keys, List.map_cons, List.nodup_cons] at hnd
    obtain ⟨hnotin, hnd2⟩ := hnd
    rw [calculate_co2e_offsetting]
    by_cases heq : action = p.1
    · by_cases hpos : 0 < p.2
      · rw [if_pos hpos, findVal, if_pos heq, findVal, if_pos heq]
        simp [hpos]
      · rw [if_neg hpos, findVal, if_pos heq]
        have hnone : findVal (calculate_co2e_offsetting total rest) action = none := by
          apply findVal_eq_none_of_not_mem_keys
          intro hmem
          rw [heq] at hmem
          exact hnotin (keys_offsetting_subset total rest p.1 hmem)
        rw [hnone]
        simp [hpos]
    · by_cases hpos : 0 < p.2
      · rw [if_pos hpos, findVal, if_neg heq, findVal, if_neg heq]
        exact ih hnd2
      · rw [if_neg hpos, findVal, if_neg heq]
        exact ih hnd2

/-- Witness for `offsetting_skips_nonpositive_and_divides` on a table with
a positive, a zero and a negative saving. -/
theorem offsetting_skips_nonpositive_and_divides_witness :
    (keys [("tree", 25), ("flight", 0), ("scam", -5)]).Nodup ∧
    findVal (calculate_co2e_offsetting 100
        [("tree", 25), ("flight", 0), ("scam", -5)]) "tree" =
      (findVal ([("tree", 25), ("flight", 0), ("scam", -5)] : SMap) "tree").bind
        (fun s => if 0 < s then some (100 / s) else none) :=
  ⟨by decide,
    offsetting_skips_nonpositive_and_divides 100
      [("tree", 25), ("flight", 0), ("scam", -5)] (by decide) "tree"⟩

lemma keys_map_pair (m : SMap) (g : String × ℚ → ℚ) :
    keys (m.map (fun p => (p.1, g p))) = keys m := by
  rw [keys, keys, List.map_map]; rfl

lemma keys_percentShares (m : SMap) : keys (percentShares m) = keys m :=
  keys_map_pair m _

lemma keys_resolutionShares (m : SMap) :
    keys (resolutionShares m) = keys m := by
  unfold resolutionShares
  dsimp only
  split
  · rw [keys_map_pair, keys_percentShares]
  · exact keys_percentShares m

lemma findVal_isSome_of_mem_keys (m : SMap) (k : String)
    (h : k ∈ keys m) : (findVal m k).isSome = true := by
  induction m with
  | nil => simp [keys] at h
  | cons p rest ih =>
    rw [findVal]
    by_cases heq : k = p.1
    · rw [if_pos heq]; rfl
    · rw [if_neg heq]
      rw [keys, List.map_cons] at h
      rcases List.mem_cons.mp h with h1 | h2
      · exact absurd h1 heq
      · exact ih h2

lemma sumTerms_isSome (share bitrate : SMap)
    (h : ∀ k ∈ keys bitrate, k ∈ keys share) :
    (sumTerms share bitrate).isSome = true := by
  induction bitrate with
  | nil => rfl
  | cons p rest ih =>
    have hp : p.1 ∈ keys share := by
      apply h; rw [keys, List.map_cons]; exact List.mem_cons_self _ _
    obtain ⟨s, hs⟩ := Option.isSome_iff_exists.mp
      (findVal_isSome_of_mem_keys share p.1 hp)
    have hrest : (sumTerms share rest).isSome = true := by
      apply ih; intro k hk
      apply h; rw [keys, List.map_cons]; exact List.mem_cons_of_mem _ hk
    obtain ⟨acc, hacc⟩ := Option.isSome_iff_exists.mp hrest
    rw [sumTerms]
    simp [hs, hacc]

lemma netRow_isSome (aM bM : SMap) (gbF gbM fSh mSh co2eKwh : ℚ)
    (net : String) (ha : net ∈ keys aM) (hb : net ∈ keys bM)
    (hnet : net = "fixed" ∨ net = "mobile") :
    (netRow aM bM gbF gbM fSh mSh co2eKwh net).isSome = true := by
  obtain ⟨av, hav⟩ := Option.isSome_iff_exists.mp
    (findVal_isSome_of_mem_keys aM net ha)
  obtain ⟨bv, hbv⟩ := Option.isSome_iff_exists.mp
    (findVal_isSome_of_mem_keys bM net hb)
  rcases hnet with hf | hm
  · subst hf; simp [netRow, hav, hbv]
  · subst hm; simp [netRow, hav, hbv]

lemma netRows_isSome (aM bM : SMap) (gbF gbM fSh mSh co2eKwh : ℚ)
    (l : List String) (ha : ∀ net ∈ l, net ∈ keys aM)
    (hb : ∀ net ∈ l, net ∈ keys bM)
    (hnet : ∀ net ∈ l, net = "fixed" ∨ net = "mobile") :
    (netRows aM bM gbF gbM fSh mSh co2eKwh l).isSome = true := by
  induction l with
  | nil => rfl
  | cons net rest ih =>
    obtain ⟨r, hr⟩ := Option.isSome_iff_exists.mp
      (netRow_isSome aM bM gbF gbM fSh mSh co2eKwh net
        (ha net (List.mem_cons_self _ _)) (hb net (List.mem_cons_self _ _))
        (hnet net (List.mem_cons_self _ _)))
    obtain ⟨rs, hrs⟩ := Option.isSome_iff_exists.mp
      (ih (fun n hn => ha n (List.mem_cons_of_mem _ hn))
          (fun n hn => hb n (List.mem_cons_of_mem _ hn))
          (fun n hn => hnet n (List.mem_cons_of_mem _ hn)))
    rw [netRows]
    simp [hr, hrs]

lemma computeOpt_isSome_of_wellFormed (a : Assumptions)
    (hwf : WellFormed a) : (computeOpt a).isSome = true := by
  obtain ⟨h1, h2, h3, h4, h5, h6⟩ := hwf
  have hgf : (sumTerms (resolutionShares a.fixed_network_resolution_percent)
      a.video_bitrate_GB_per_hour).isSome = true := by
    apply sumTerms_isSome
    intro k hk
    rw [keys_resolutionShares]
    exact h1 k hk
  have hgm : (sumTerms (resolutionShares a.mobile_network_resolution_percent)
      a.video_bitrate_GB_per_hour).isSome = true := by
    apply sumTerms_isSome
    intro k hk
    rw [keys_resolutionShares]
    exact h2 k hk
  obtain ⟨gf, hgf'⟩ := Option.isSome_iff_exists.mp hgf
  obtain ⟨gm, hgm'⟩ := Option.isSome_iff_exists.mp hgm
  have hrows : (netRows a.network_kwh_per_gb a.network_kwh_per_user_per_hour
      gf gm (networkShares (deviceShares a.device_percent)
        (fixedShareByDevice a.fixed_network_percent)).1
      (networkShares (deviceShares a.device_percent)
        (fixedShareByDevice a.fixed_network_percent)).2
      a.co2e_per_kWh (keys a.network_kwh_per_gb)).isSome = true :=
    netRows_isSome _ _ _ _ _ _ _ _ (fun _ hn => hn) h3 h4
  obtain ⟨rows, hrows'⟩ := Option.isSome_iff_exists.mp hrows
  obtain ⟨c, hc⟩ := Option.isSome_iff_exists.mp
    (findVal_isSome_of_mem_keys _ _ h5)
  obtain ⟨d, hd⟩ := Option.isSome_iff_exists.mp
    (findVal_isSome_of_mem_keys _ _ h6)
  rw [computeOpt]
  simp [hgf', hgm', hrows', hc, hd]

/-- C3: on any input satisfying the section-3 shape with non-negative
numeric values, the engine terminates normally — every division is
guarded, every dict index hits, and the `none` (exception) branch of the
embedding is unreachable. -/
theorem compute_never_raises (a : Assumptions) (role : String)
    (hwf : WellFormed a) (hnn : Nonneg a) :
    (compute_total_kg_co2e a role).isSome = true := by
  rw [compute_total_kg_co2e]
  have hopt := computeOpt_isSome_of_wellFormed a hwf
  cases h : computeOpt a with
  | none => rw [h] at hopt; exact absurd hopt (by simp)
  | some i => rfl

/-- Witness for `compute_never_raises` on the concrete configuration. -/
theorem compute_never_raises_witness :
    WellFormed exA ∧ Nonneg exA ∧
    (compute_total_kg_co2e exA "consumer").isSome = true :=
  ⟨by decide, by norm_num [Nonneg, exA],
    compute_never_raises exA "consumer" (by decide)
      (by norm_num [Nonneg, exA])⟩

/-- C4: the `role` argument is display-only — for any two role strings
(recognized or not, including the empty string) the engine returns the
same totals and numerically identical breakdowns, and succeeds or fails
identically, so no unrecognized role can raise. -/
theorem role_does_not_change_arithmetic (a : Assumptions) (r1 r2 : String) :
    (compute_total_kg_co2e a r1).map (fun t => (t.1, t.2.1, t.2.2.vals)) =
      (compute_total_kg_co2e a r2).map (fun t => (t.1, t.2.1, t.2.2.vals)) ∧
    (compute_total_kg_co2e a r1).isSome = (compute_total_kg_co2e a r2).isSome := by
  constructor
  · rw [compute_total_kg_co2e, compute_total_kg_co2e]
    cases h : computeOpt a with
    | none => rfl
    | some i => rfl
  · rw [compute_total_kg_co2e, compute_total_kg_co2e]
    cases h : computeOpt a with
    | none => rfl
    | some i => rfl

lemma computeCore_fst (role : String) (i : EngineInputs)
    (pm lm wm : SMap) (ck hi : ℚ) :
    (computeCore role i pm lm wm ck hi).1 =
      (((devEnergyRows i.devFrac wm ck).map EnergyRow.co2).sum +
       (i.rows.map NetRow.co2W).sum +
       (i.dcPerGB * (i.fSh * i.gbF + i.mSh * i.gbM) + i.dcPerHour)) *
      (hi * 52) := rfl

lemma computeCore_snd_fst (role : String) (i : EngineInputs)
    (pm lm wm : SMap) (ck hi : ℚ) :
    (computeCore role i pm lm wm ck hi).2.1 =
      (sumVals (devProdRows i.devFrac pm lm) +
       (((devEnergyRows i.devFrac wm ck).map EnergyRow.co2).sum +
        (i.rows.map NetRow.co2W).sum +
        (i.dcPerGB * (i.fSh * i.gbF + i.mSh * i.gbM) + i.dcPerHour))) *
      (hi * 52) := rfl

lemma computeCore_vals_production (role : String) (i : EngineInputs)
    (pm lm wm : SMap) (ck hi : ℚ) :
    (computeCore role i pm lm wm ck hi).2.2.vals "production_co2_total" =
      some (sumVals (devProdRows i.devFrac pm lm) * (hi * 52)) := rfl

lemma computeCore_vals_device_energy (role : String) (i : EngineInputs)
    (pm lm wm : SMap) (ck hi : ℚ) :
    (computeCore role i pm lm wm ck hi).2.2.vals "device_energy_co2_total" =
      some (((devEnergyRows i.devFrac wm ck).map EnergyRow.co2).sum *
        (hi * 52)) := rfl

lemma computeCore_vals_network (role : String) (i : EngineInputs)
    (pm lm wm : SMap) (ck hi : ℚ) :
    (computeCore role i pm lm wm ck hi).2.2.vals "network_co2_total" =
      some ((i.rows.map NetRow.co2W).sum * (hi * 52)) := rfl

lemma computeCore_vals_datacenter (role : String) (i : EngineInputs)
    (pm lm wm : SMap) (ck hi : ℚ) :
    (computeCore role i pm lm wm ck hi).2.2.vals "datacenter_co2_total" =
      some ((i.dcPerGB * (i.fSh * i.gbF + i.mSh * i.gbM) + i.dcPerHour) *
        (hi * 52)) := rfl

/-- C1: whenever the engine returns, the annualized totals decompose —
the with-production total is the usage-only total plus the breakdown's
"production_co2_total" entry, and the usage-only total is the sum of the
"device_energy_co2_total", "network_co2_total" and "datacenter_co2_total"
entries, exactly, in exact arithmetic. -/
theorem totals_decompose (a : Assumptions) (r : String) (u w : ℚ)
    (b : Breakdown) (h : compute_total_kg_co2e a r = some (u, w, b)) :
    (b.vals "production_co2_total").isSome = true ∧
    (b.vals "device_energy_co2_total").isSome = true ∧
    (b.vals "network_co2_total").isSome = true ∧
    (b.vals "datacenter_co2_total").isSome = true ∧
    w = u + bval b "production_co2_total" ∧
    u = bval b "device_energy_co2_total" + bval b "network_co2_total" +
        bval b "datacenter_co2_total" := by
  rw [compute_total_kg_co2e] at h
  cases hopt : computeOpt a with
  | none => rw [hopt] at h; exact absurd h (by simp)
  | some i =>
    rw [hopt] at h
    have hX : computeCore r i a.device_production_kg_co2e
        a.device_lifetime_hours a.device_watts a.co2e_per_kWh
        a.hours_input = (u, w, b) := Option.some.inj h
    have hu : u = (computeCore r i a.device_production_kg_co2e
        a.device_lifetime_hours a.device_watts a.co2e_per_kWh
        a.hours_input).1 := by rw [hX]
    have hw : w = (computeCore r i a.device_production_kg_co2e
        a.device_lifetime_hours a.device_watts a.co2e_per_kWh
        a.hours_input).2.1 := by rw [hX]
    have hb : b = (computeCore r i a.device_production_kg_co2e
        a.device_lifetime_hours a.device_watts a.co2e_per_kWh
        a.hours_input).2.2 := by rw [hX]
    subst hu hw hb
    rw [bval, bval, bval, bval, computeCore_fst, computeCore_snd_fst,
      computeCore_vals_production, computeCore_vals_device_energy,
      computeCore_vals_network, computeCore_vals_datacenter]
    refine ⟨rfl, rfl, rfl, rfl, ?_, ?_⟩ <;>
      (simp only [Option.getD_some]; ring)

lemma compute_isSome_of_computeOpt (a : Assumptions) (r : String)
    (h : (computeOpt a).isSome = true) :
    (compute_total_kg_co2e a r).isSome = true := by
  rw [compute_total_kg_co2e]
  cases hc : computeOpt a with
  | none => rw [hc] at h; exact absurd h (by simp)
  | some i => rfl

/-- The engine's concrete result on `exA`, extracted from the succeeding
computation. -/
def exRes : ℚ × ℚ × Breakdown :=
  (compute_total_kg_co2e exA "producer").get
    (compute_isSome_of_computeOpt exA "producer"
      (computeOpt_isSome_of_wellFormed exA (by decide)))

/-- Witness for `totals_decompose` on the concrete configuration. -/
theorem totals_decompose_witness :
    compute_total_kg_co2e exA "producer" =
      some (exRes.1, exRes.2.1, exRes.2.2) ∧
    ((exRes.2.2.vals "production_co2_total").isSome = true ∧
     (exRes.2.2.vals "device_energy_co2_total").isSome = true ∧
     (exRes.2.2.vals "network_co2_total").isSome = true ∧
     (exRes.2.2.vals "datacenter_co2_total").isSome = true ∧
     exRes.2.1 = exRes.1 + bval exRes.2.2 "production_co2_total" ∧
     exRes.1 = bval exRes.2.2 "device_energy_co2_total" +
       bval exRes.2.2 "network_co2_total" +
       bval exRes.2.2 "datacenter_co2_total") := by
  have h : compute_total_kg_co2e exA "producer" =
      some (exRes.1, exRes.2.1, exRes.2.2) :=
    (Option.some_get (compute_isSome_of_computeOpt exA "producer"
      (computeOpt_isSome_of_wellFormed exA (by decide)))).symm
  exact ⟨h, totals_decompose exA "producer" exRes.1 exRes.2.1 exRes.2.2 h⟩

/-- Replace one key's value in a dict, leaving everything else unchanged
(the hypothetical "same input with that device's lifetime replaced"). -/
def updateVal (m : SMap) (k : String) (x : ℚ) : SMap :=
  match m with
  | [] => []
  | p :: rest => (if p.1 = k then (p.1, x) else p) :: updateVal rest k x

/-- An `Assumptions` with one device's lifetime overwritten. -/
def setLifetime (a : Assumptions) (dev : String) (x : ℚ) : Assumptions :=
  { a with device_lifetime_hours := updateVal a.device_lifetime_hours dev x }

lemma findVal_updateVal_ne (m : SMap) (k dev : String) (x : ℚ)
    (h : dev ≠ k) : findVal (updateVal m k x) dev = findVal m dev := by
  induction m with
  | nil => rfl
  | cons p rest ih =>
    rw [updateVal]
    by_cases hp : p.1 = k
    · rw [if_pos hp, findVal, findVal]
      have hd : ¬ dev = p.1 := fun hdd => h (hdd.trans hp)
      dsimp only
      rw [if_neg hd, if_neg hd]
      exact ih
    · rw [if_neg hp, findVal, findVal]
      by_cases hd : dev = p.1
      · rw [if_pos hd, if_pos hd]
      · rw [if_neg hd, if_neg hd]
        exact ih

lemma findVal_updateVal_self (m : SMap) (k : String) (x v : ℚ)
    (h : findVal m k = some v) : findVal (updateVal m k x) k = some x := by
  induction m with
  | nil => exact absurd h (by simp [findVal])
  | cons p rest ih =>
    rw [updateVal]
    by_cases hp : p.1 = k
    · rw [if_pos hp, findVal]
      dsimp only
      rw [if_pos hp.symm]
    · rw [if_neg hp, findVal]
      have hk : ¬ k = p.1 := fun hkk => hp hkk.symm
      rw [if_neg hk]
      rw [findVal, if_neg hk] at h
      exact ih h

lemma flife_updateVal (m : SMap) (dv : String) (v : ℚ)
    (hv : findVal m dv = some v) (hv1 : v ≤ 1) :
    flife (updateVal m dv 1) = flife m := by
  funext dev
  by_cases hd : dev = dv
  · subst hd
    rw [flife, flife, getD, getD, findVal_updateVal_self m dev 1 v hv, hv]
    simp only [Option.getD_some]
    rw [max_eq_left hv1, max_eq_left le_rfl]
  · rw [flife, flife, getD, getD, findVal_updateVal_ne m dv dev 1 hd]

lemma computeCore_lifetime_floor (role : String) (i : EngineInputs)
    (pm wm : SMap) (ck hi : ℚ) (lm : SMap) (dv : String) (v : ℚ)
    (hv : findVal lm dv = some v) (hv1 : v ≤ 1) :
    computeCore role i pm (updateVal lm dv 1) wm ck hi =
      computeCore role i pm lm wm ck hi := by
  have hrows : devProdRows i.devFrac pm (updateVal lm dv 1) =
      devProdRows i.devFrac pm lm := by
    rw [devProdRows, devProdRows, flife_updateVal lm dv v hv hv1]
  rw [computeCore, computeCore, hrows]

/-- C7: a device lifetime below one hour (zero included) neither raises
nor differs from the run where that lifetime is literally 1 — the
amortization divides by `max(1, lifetime)`, and on a well-shaped input the
engine still returns normally. -/
theorem lifetime_floor (a : Assumptions) (dv : String) (v : ℚ) (r : String)
    (hv : findVal a.device_lifetime_hours dv = some v) (hlt : v < 1) :
    compute_total_kg_co2e a r =
      compute_total_kg_co2e (setLifetime a dv 1) r ∧
    (WellFormed a → (compute_total_kg_co2e a r).isSome = true) := by
  constructor
  · have hopt : computeOpt (setLifetime a dv 1) = computeOpt a := rfl
    rw [compute_total_kg_co2e, compute_total_kg_co2e, hopt]
    exact congrArg (fun f => Option.map f (computeOpt a))
      (funext fun i => (computeCore_lifetime_floor r i
        a.device_production_kg_co2e a.device_watts a.co2e_per_kWh
        a.hours_input a.device_lifetime_hours dv v hv (le_of_lt hlt)).symm)
  · intro hwf
    exact compute_isSome_of_computeOpt a r
      (computeOpt_isSome_of_wellFormed a hwf)

/-- The concrete configuration with the computer's lifetime zeroed. -/
def exA0 : Assumptions := setLifetime exA "computer" 0

/-- Witness for `lifetime_floor`: a zero lifetime on a live input. -/
theorem lifetime_floor_witness :
    findVal exA0.device_lifetime_hours "computer" = some 0 ∧ (0:ℚ) < 1 ∧
    compute_total_kg_co2e exA0 "producer" =
      compute_total_kg_co2e (setLifetime exA0 "computer" 1) "producer" ∧
    (compute_total_kg_co2e exA0 "producer").isSome = true := by
  have hfv : findVal exA0.device_lifetime_hours "computer" = some 0 := by
    simp [exA0, setLifetime, exA, updateVal, findVal]
  have h := lifetime_floor exA0 "computer" 0 "producer" hfv (by norm_num)
  exact ⟨hfv, by norm_num, h.1, h.2 (by decide)⟩

lemma DMap.insert_apply_ne (m : DMap) (k : String) (v : ℚ) (q : String)
    (h : q ≠ k) : (DMap.insert m k v) q = m q := if_neg h

lemma DMap.insertMany_apply_ne (l : List (String × ℚ)) (m : DMap) (k : String)
    (h : ∀ p ∈ l, p.1 ≠ k) : (DMap.insertMany m l) k = m k := by
  induction l generalizing m with
  | nil => rfl
  | cons p t ih =>
    rw [DMap.insertMany]
    rw [ih _ (fun q hq => h q (List.mem_cons_of_mem _ hq))]
    exact DMap.insert_apply_ne m p.1 p.2 k
      (Ne.symm (h p (List.mem_cons_self _ _)))

lemma insertRows_apply_ne (f : α → List (String × ℚ)) (rows : List α)
    (m : DMap) (k : String) (h : ∀ r ∈ rows, ∀ p ∈ f r, p.1 ≠ k) :
    insertRows f rows m k = m k := by
  induction rows generalizing m with
  | nil => rfl
  | cons r t ih =>
    rw [insertRows]
    rw [ih _ (fun q hq => h q (List.mem_cons_of_mem _ hq))]
    exact DMap.insertMany_apply_ne (f r) m k (h r (List.mem_cons_self _ _))

lemma append_ne_of_length_lt (p t n : String) (h : t.length < p.length) :
    p ++ n ≠ t := by
  intro he
  have hl := congrArg String.length he
  rw [String.length_append] at hl
  omega

lemma netRow_name (aM bM : SMap) (gbF gbM fSh mSh ck : ℚ) (net : String)
    (r : NetRow) (h : netRow aM bM gbF gbM fSh mSh ck net = some r) :
    r.name = net ∧ (net = "fixed" ∨ net = "mobile") := by
  by_cases h1 : net = "fixed"
  · subst h1
    simp only [netRow, bind, Option.bind_eq_some, String.reduceEq, reduceIte,
      Option.pure_def, Option.some.injEq] at h
    obtain ⟨av, ha, bv, hb, gb, hgb, sh, hsh, hr⟩ := h
    exact ⟨by rw [← hr], Or.inl rfl⟩
  · by_cases h2 : net = "mobile"
    · subst h2
      simp only [netRow, bind, Option.bind_eq_some, String.reduceEq, reduceIte,
        Option.pure_def, Option.some.injEq] at h
      obtain ⟨av, ha, bv, hb, gb, hgb, sh, hsh, hr⟩ := h
      exact ⟨by rw [← hr], Or.inr rfl⟩
    · simp only [netRow, bind, Option.bind_eq_some, h1, h2, if_false,
        Option.pure_def, Option.some.injEq] at h
      obtain ⟨av, ha, bv, hb, gb, hgb, hrest⟩ := h
      exact absurd hgb (by simp)
lemma netRows_names (aM bM : SMap) (gbF gbM fSh mSh ck : ℚ)
    (l : List String) (rows : List NetRow)
    (h : netRows aM bM gbF gbM fSh mSh ck l = some rows) :
    ∀ r ∈ rows, r.name = "fixed" ∨ r.name = "mobile" := by
  induction l generalizing rows with
  | nil =>
    rw [netRows] at h
    obtain rfl := Option.some.inj h
    intro r hr
    exact absurd hr (List.not_mem_nil r)
  | cons net t ih =>
    rw [netRows] at h
    simp only [bind, Option.bind_eq_some, Option.pure_def,
      Option.some.injEq] at h
    obtain ⟨r0, hr0, rs, hrs, hcons⟩ := h
    intro r hr
    rw [← hcons] at hr
    rcases List.mem_cons.mp hr with h1 | h1
    · subst h1
      obtain ⟨hname, hnet⟩ := netRow_name aM bM gbF gbM fSh mSh ck net r hr0
      rw [hname]
      exact hnet
    · exact ih rs hrs r h1

lemma computeOpt_inv (a : Assumptions) (i : EngineInputs)
    (h : computeOpt a = some i) :
    (∀ r ∈ i.rows, r.name = "fixed" ∨ r.name = "mobile") ∧
    i.fSh = (networkShares (deviceShares a.device_percent)
      (fixedShareByDevice a.fixed_network_percent)).1 ∧
    i.mSh = (networkShares (deviceShares a.device_percent)
      (fixedShareByDevice a.fixed_network_percent)).2 := by
  simp only [computeOpt, bind, Option.bind_eq_some, Option.pure_def,
    Option.some.injEq] at h
  obtain ⟨gbF, hgf, gbM, hgm, rows, hrows, c, hc, d, hd, hi⟩ := h
  subst hi
  refine ⟨?_, rfl, rfl⟩
  intro r hr
  exact netRows_names _ _ _ _ _ _ _ _ rows hrows r hr

lemma computeCore_vals_network_share (role : String) (i : EngineInputs)
    (pm lm wm : SMap) (ck hi : ℚ)
    (hnames : ∀ r ∈ i.rows, r.name = "fixed" ∨ r.name = "mobile") :
    (computeCore role i pm lm wm ck hi).2.2.vals "network_share_fixed" =
      some (i.fSh * 100) ∧
    (computeCore role i pm lm wm ck hi).2.2.vals "network_share_mobile" =
      some (i.mSh * 100) := by
  have hnet : ∀ t : String, t = "network_share_fixed" ∨
      t = "network_share_mobile" →
      ∀ r ∈ i.rows, ∀ p ∈ [("network_a_kwh_per_gb_" ++ r.name, r.a),
        ("network_b_kwh_per_user_hour_" ++ r.name, r.b),
        ("network_gb_per_hour_" ++ r.name, r.gb),
        ("network_kwh_per_video_hour_" ++ r.name, r.kwhW),
        ("network_co2_per_video_hour_" ++ r.name, r.co2W)], p.1 ≠ t := by
    intro t ht r hr q hq
    simp only [List.mem_cons, List.not_mem_nil, or_false] at hq
    rcases hnames r hr with hn | hn <;> rcases ht with ht | ht <;> subst ht <;>
      (rcases hq with h1 | h1 | h1 | h1 | h1 <;> subst h1 <;> rw [hn] <;>
        dsimp only <;> decide)
  have henergy : ∀ t : String, t.length < 43 →
      ∀ r ∈ devEnergyRows i.devFrac wm ck,
      ∀ p ∈ [("device_energy_kwh_per_video_hour_by_device_" ++ r.name, r.kwh),
        ("device_energy_co2_per_video_hour_by_device_" ++ r.name, r.co2)],
        p.1 ≠ t := by
    intro t ht r hr q hq
    simp only [List.mem_cons, List.not_mem_nil, or_false] at hq
    rcases hq with h1 | h1 <;> subst h1 <;>
      (refine append_ne_of_length_lt _ _ _ ?_;
       refine lt_of_lt_of_le ht (le_of_eq ?_);
       rfl)
  have hprod : ∀ t : String, t.length < 47 →
      ∀ p ∈ devProdRows i.devFrac pm lm,
      ∀ q ∈ [("device_production_co2_per_video_hour_by_device_" ++ p.1, p.2)],
        q.1 ≠ t := by
    intro t ht p hp q hq
    simp only [List.mem_cons, List.not_mem_nil, or_false] at hq
    subst hq
    refine append_ne_of_length_lt _ _ _ ?_
    refine lt_of_lt_of_le ht (le_of_eq ?_)
    rfl
  constructor
  · simp only [computeCore, DMap.insert, String.reduceEq, reduceIte]
    rw [insertRows_apply_ne _ _ _ _ (hnet _ (Or.inl rfl))]
    simp only [DMap.insert, String.reduceEq, reduceIte]
    rw [insertRows_apply_ne _ _ _ _ (henergy _ (by decide))]
    simp only [DMap.insert, String.reduceEq, reduceIte]
    rw [insertRows_apply_ne _ _ _ _ (hprod _ (by decide))]
    simp only [DMap.insert, String.reduceEq, reduceIte]
  · simp only [computeCore, DMap.insert, String.reduceEq, reduceIte]
    rw [insertRows_apply_ne _ _ _ _ (hnet _ (Or.inr rfl))]
    simp only [DMap.insert, String.reduceEq, reduceIte]
    rw [insertRows_apply_ne _ _ _ _ (henergy _ (by decide))]
    simp only [DMap.insert, String.reduceEq, reduceIte]
    rw [insertRows_apply_ne _ _ _ _ (hprod _ (by decide))]
    simp only [DMap.insert, String.reduceEq, reduceIte]

/-- C10: the engine's aggregate network split is a genuine partition — the
fixed and mobile shares always sum to exactly 1 (the fixed share is
clamped into [0,1], the mobile share is its complement, and the final
renormalization divides by their sum 1), so the breakdown percentages
"network_share_fixed" and "network_share_mobile" always sum to exactly
100. -/
theorem network_split_sums_to_one :
    (∀ dF fbd : SMap,
      (networkShares dF fbd).1 + (networkShares dF fbd).2 = 1) ∧
    (∀ (a : Assumptions) (r : String) (u w : ℚ) (b : Breakdown),
      compute_total_kg_co2e a r = some (u, w, b) →
      (b.vals "network_share_fixed").isSome = true ∧
      (b.vals "network_share_mobile").isSome = true ∧
      bval b "network_share_fixed" + bval b "network_share_mobile" = 100) := by
  refine ⟨networkShares_sum, ?_⟩
  intro a r u w b h
  rw [compute_total_kg_co2e] at h
  cases hopt : computeOpt a with
  | none => rw [hopt] at h; exact absurd h (by simp)
  | some i =>
    rw [hopt] at h
    have hX : computeCore r i a.device_production_kg_co2e
        a.device_lifetime_hours a.device_watts a.co2e_per_kWh
        a.hours_input = (u, w, b) := Option.some.inj h
    have hb : b = (computeCore r i a.device_production_kg_co2e
        a.device_lifetime_hours a.device_watts a.co2e_per_kWh
        a.hours_input).2.2 := by rw [hX]
    obtain ⟨hnames, hf, hm⟩ := computeOpt_inv a i hopt
    obtain ⟨hvf, hvm⟩ := computeCore_vals_network_share r i
      a.device_production_kg_co2e a.device_lifetime_hours a.device_watts
      a.co2e_per_kWh a.hours_input hnames
    subst hb
    rw [bval, bval, hvf, hvm]
    refine ⟨rfl, rfl, ?_⟩
    simp only [Option.getD_some]
    rw [hf, hm]
    have := networkShares_sum (deviceShares a.device_percent)
      (fixedShareByDevice a.fixed_network_percent)
    linarith

/-- Witness for the second part of `network_split_sums_to_one` on the
concrete configuration. -/
theorem network_split_sums_to_one_witness :
    compute_total_kg_co2e exA "producer" =
      some (exRes.1, exRes.2.1, exRes.2.2) ∧
    ((exRes.2.2.vals "network_share_fixed").isSome = true ∧
     (exRes.2.2.vals "network_share_mobile").isSome = true ∧
     bval exRes.2.2 "network_share_fixed" +
       bval exRes.2.2 "network_share_mobile" = 100) := by
  have h : compute_total_kg_co2e exA "producer" =
      some (exRes.1, exRes.2.1, exRes.2.2) :=
    (Option.some_get (compute_isSome_of_computeOpt exA "producer"
      (computeOpt_isSome_of_wellFormed exA (by decide)))).symm
  exact ⟨h, network_split_sums_to_one.2 exA "producer"
    exRes.1 exRes.2.1 exRes.2.2 h⟩

/-- The decimals map `loader.Assumptions._decimals_map`: a Python dict
keyed by (variable, optional subkey), as an overwriting-insert lookup
function. -/
abbrev DecMap := String × Option String → Option Nat

/-- The empty decimals map. -/
def DecMap.empty : DecMap := fun _ => none

/-- `decimals_map[(top, sub)] = d` of loader.py lines 102 and 104. -/
def DecMap.insert (m : DecMap) (k : String × Option String) (v : Nat) :
    DecMap := fun q => if q = k then some v else m q

/-- `Assumptions.get_decimals` (loader.py lines 35-47): the recorded count
for (variable, subkey), else the count for (variable, None), else 2. -/
def get_decimals (m : DecMap) (x : String) (sub : Option String) : Nat :=
  match m (x, sub) with
  | some d => d
  | none =>
    match m (x, none) with
    | some d => d
    | none => 2

/-- Python `rstrip()` over characters. -/
def rstripChars (cs : List Char) : List Char :=
  ((cs.reverse).dropWhile Char.isWhitespace).reverse

/-- Python `strip()` over characters. -/
def stripChars (cs : List Char) : List Char :=
  rstripChars (cs.dropWhile Char.isWhitespace)

/-- The numeric-literal regex `^-?\d+(?:\.(\d+))?$` of loader.py lines
94-96: the digit count of the fractional part (0 without a point), or
`none` when the text is not such a literal. -/
def numLitDecimals (s : String) : Option Nat :=
  let cs := s.toList
  let cs1 := if cs.head? = some '-' then cs.tail else cs
  let intPart := cs1.takeWhile Char.isDigit
  let rest := cs1.dropWhile Char.isDigit
  if intPart.isEmpty then none
  else if rest.isEmpty then some 0
  else if rest.head? = some '.' ∧ rest.tail ≠ [] ∧
    rest.tail.all Char.isDigit then some rest.tail.length
  else none

/-- One raw line classified (loader.py lines 72-82): comment-stripped and
right-stripped; blank or colon-free lines are skipped, otherwise the
leading-space indent and the stripped key and value are extracted. -/
inductive LineForm where
  | skipLine
  | entry (indent : Nat) (key : String) (value : String)

/-- Parse one line the way the scanner's loop body reads it. -/
def parseLine (line : String) : LineForm :=
  let noComment := rstripChars (line.toList.takeWhile (fun c => c ≠ '#'))
  if noComment.isEmpty then LineForm.skipLine
  else
    let content := noComment.dropWhile (fun c => c = ' ')
    let indent := noComment.length - content.length
    if ':' ∈ content then
      let keyPart := content.takeWhile (fun c => c ≠ ':')
      let valuePart := (content.dropWhile (fun c => c ≠ ':')).tail
      LineForm.entry indent (String.mk (stripChars keyPart))
        (String.mk (stripChars valuePart))
    else LineForm.skipLine

/-- Scanner state: the (indent, key) nesting stack — most recent first,
so Python's `stack[-1]` is the head and `parents[0]` the last — plus the
accumulating decimals map. -/
abbrev ScanState := List (Nat × String) × DecMap

/-- One iteration of the scanner loop (loader.py lines 71-104): pop the
stack while the top's indent is not smaller, push mapping starts, and for
numeric scalars record (top-level key, None) or (outermost parent, key). -/
def processLine (st : ScanState) (line : String) : ScanState :=
  match parseLine line with
  | LineForm.skipLine => st
  | LineForm.entry indent key value =>
    let stack := st.1.dropWhile (fun p => indent ≤ p.1)
    if value = "" then ((indent, key) :: stack, st.2)
    else
      match numLitDecimals value with
      | some d =>
        match stack.getLast? with
        | some bottom => (stack, DecMap.insert st.2 (bottom.2, some key) d)
        | none => (stack, DecMap.insert st.2 (key, none) d)
      | none => (stack, st.2)

/-- `_compute_decimals_map_from_yaml` (loader.py lines 50-106) over the
split lines of the raw text. -/
def scanLines (lines : List String) : DecMap :=
  (lines.foldl processLine ([], DecMap.empty)).2

/-- The key a line would contribute, if any. -/
def lineKey (line : String) : Option String :=
  match parseLine line with
  | LineForm.skipLine => none
  | LineForm.entry _ k _ => some k

/-- A value parsed out of the YAML mapping: a numeric scalar or a nested
one-level mapping, after loader.py's float() coercion (lines 28-33). -/
inductive YamlVal where
  | scalar (q : ℚ)
  | table (m : SMap)

/-- The parsed configuration mapping, `yaml.safe_load`'s result. -/
abbrev RawConfig := List (String × YamlVal)

/-- The keys of a parsed configuration. -/
def cfgKeys (c : RawConfig) : List String := c.map Prod.fst

/-- The spec's error taxonomy for the assumptions store. -/
inductive LoadError where
  | configNotFound
  | configParseError

/-- The loaded store: the dynamically-set attributes and the decimals map. -/
structure LoadedAssumptions where
  fields : RawConfig
  decimals : DecMap

/-- Every key spec section 3 names. -/
def requiredKeys : List String :=
  ["device_percent", "fixed_network_percent",
   "fixed_network_resolution_percent", "mobile_network_resolution_percent",
   "device_production_kg_co2e", "device_lifetime_hours", "device_watts",
   "co2e_per_kWh", "network_kwh_per_gb", "network_kwh_per_user_per_hour",
   "datacenter_kg_co2e", "video_bitrate_GB_per_hour", "co2e_offsetting",
   "hours_input"]

/-- `load_assumptions` plus `Assumptions.load_from_yaml` (loader.py lines
19-33 and 109-114), with the file system and the YAML parser as oracle
inputs: `fileExists` is the `assumptions_path.exists()` test, `parsed` is
`yaml.safe_load`'s outcome (`none` = parse error, which propagates), and
`lines` is the raw text's line split fed to the decimals scan.  A missing
file raises (the spec's ConfigNotFound); a failed parse raises (the
spec's ConfigParseError); a successful parse is stored as attributes
as-is — the code contains no required-key validation. -/
def load_assumptions (fileExists : Bool) (parsed : Option RawConfig)
    (lines : List String) : Except LoadError LoadedAssumptions :=
  if fileExists then
    match parsed with
    | some data => Except.ok ⟨data, scanLines lines⟩
    | none => Except.error LoadError.configParseError
  else Except.error LoadError.configNotFound

/-- C2 counterexample: a configuration that parses but lacks the required
key "hours_input" loads successfully — no ConfigParseError is raised and
the returned object is missing the key, contradicting the claim that
loading fails exactly when a required key is absent. -/
theorem load_missing_required_key_counterexample :
    "hours_input" ∈ requiredKeys ∧
    "hours_input" ∉ cfgKeys ([] : RawConfig) ∧
    load_assumptions true (some ([] : RawConfig)) [] =
      Except.ok ⟨[], scanLines []⟩ :=
  ⟨by decide, by decide, rfl⟩

/-- C2 amended: loading fails with ConfigNotFound exactly when the file
does not exist and with ConfigParseError exactly when the structured
parse fails; required keys are never validated — any successfully parsed
configuration is returned as-is, keys missing or not. -/
theorem load_error_conditions (fe : Bool) (parsed : Option RawConfig)
    (lines : List String) :
    (load_assumptions fe parsed lines =
        Except.error LoadError.configNotFound ↔ fe = false) ∧
    (load_assumptions fe parsed lines =
        Except.error LoadError.configParseError ↔
      (fe = true ∧ parsed = none)) ∧
    (∀ cfg, parsed = some cfg → fe = true →
      load_assumptions fe parsed lines = Except.ok ⟨cfg, scanLines lines⟩) := by
  cases fe <;> cases parsed <;>
    simp [load_assumptions]

/-- Witness for `load_error_conditions`, exercising the missing-file case
and the successful-load case. -/
theorem load_error_conditions_witness :
    (load_assumptions false (some ([] : RawConfig)) [] =
        Except.error LoadError.configNotFound ↔ false = false) ∧
    load_assumptions true (some [("hours_input", YamlVal.scalar 10)]) [] =
      Except.ok ⟨[("hours_input", YamlVal.scalar 10)], scanLines []⟩ :=
  ⟨(load_error_conditions false (some []) []).1,
   (load_error_conditions true (some [("hours_input", YamlVal.scalar 10)])
      []).2.2 _ rfl rfl⟩

lemma takeWhile_append_sat (p : Char → Bool) (A B : List Char) (a : Char)
    (hA : ∀ c ∈ A, p c = true) (ha : p a = false) :
    (A ++ a :: B).takeWhile p = A := by
  induction A with
  | nil => simp [List.takeWhile_cons, ha]
  | cons c t ih =>
    rw [List.cons_append, List.takeWhile_cons,
      hA c (List.mem_cons_self _ _)]
    rw [ih (fun x hx => hA x (List.mem_cons_of_mem _ hx))]
    simp

lemma dropWhile_append_sat (p : Char → Bool) (A B : List Char) (a : Char)
    (hA : ∀ c ∈ A, p c = true) (ha : p a = false) :
    (A ++ a :: B).dropWhile p = a :: B := by
  induction A with
  | nil => simp [List.dropWhile_cons, ha]
  | cons c t ih =>
    rw [List.cons_append, List.dropWhile_cons,
      hA c (List.mem_cons_self _ _)]
    simpa using ih (fun x hx => hA x (List.mem_cons_of_mem _ hx))

lemma rstripChars_eq_self_of_last (l : List Char) (cl : Char)
    (W : List Char) (hrev : l.reverse = cl :: W)
    (hcl : cl.isWhitespace = false) : rstripChars l = l := by
  rw [rstripChars, hrev, List.dropWhile_cons, hcl]
  rw [if_neg (by simp)]
  rw [← hrev, List.reverse_reverse]

lemma rstripChars_eq_self_of_all (l : List Char)
    (h : ∀ c ∈ l, c.isWhitespace = false) : rstripChars l = l := by
  cases hh : l.reverse with
  | nil =>
    have : l = [] := by simpa using congrArg List.reverse hh
    subst this; rfl
  | cons cl W =>
    refine rstripChars_eq_self_of_last l cl W hh (h cl ?_)
    rw [← List.mem_reverse, hh]
    exact List.mem_cons_self _ _

lemma dropWhile_eq_self_of_all (p : Char → Bool) (l : List Char)
    (h : ∀ c ∈ l, p c = false) : l.dropWhile p = l := by
  cases l with
  | nil => rfl
  | cons c t =>
    rw [List.dropWhile_cons, h c (List.mem_cons_self _ _)]
    exact if_neg (by simp)

lemma stripChars_eq_self_of_all (l : List Char)
    (h : ∀ c ∈ l, c.isWhitespace = false) : stripChars l = l := by
  rw [stripChars, dropWhile_eq_self_of_all _ _ h,
    rstripChars_eq_self_of_all _ h]

lemma line_toList (key v : String) :
    (key ++ ": " ++ v).toList = key.toList ++ ':' :: ' ' :: v.toList := by
  show ((key ++ ": ") ++ v).data = key.data ++ ':' :: ' ' :: v.data
  rw [String.data_append, String.data_append, List.append_assoc]
  rfl

lemma numLitDecimals_ne_nil (v : String) (d : Nat)
    (h : numLitDecimals v = some d) : v.toList ≠ [] := by
  intro he
  simp only [numLitDecimals, he] at h
  simp at h

lemma parseLine_topLevel (key v : String) (d : Nat)
    (hk1 : key.toList ≠ [])
    (hk2 : ∀ c ∈ key.toList, c.isWhitespace = false ∧ c ≠ ':' ∧ c ≠ '#')
    (hv2 : ∀ c ∈ v.toList, c.isWhitespace = false ∧ c ≠ '#')
    (hnum : numLitDecimals v = some d) :
    parseLine (key ++ ": " ++ v) = LineForm.entry 0 key v := by
  have hV : v.toList ≠ [] := numLitDecimals_ne_nil v d hnum
  obtain ⟨cl, W, hrev⟩ : ∃ cl W, v.toList.reverse = cl :: W := by
    cases hh : v.toList.reverse with
    | nil => exact absurd (by simpa using congrArg List.reverse hh) hV
    | cons a b => exact ⟨a, b, rfl⟩
  have hclw : cl.isWhitespace = false := by
    refine (hv2 cl ?_).1
    rw [← List.mem_reverse, hrev]
    exact List.mem_cons_self _ _
  obtain ⟨k0, K1, hK⟩ : ∃ k0 K1, key.toList = k0 :: K1 := by
    cases hh : key.toList with
    | nil => exact absurd hh hk1
    | cons a b => exact ⟨a, b, rfl⟩
  obtain ⟨v0, V1, hVc⟩ : ∃ v0 V1, v.toList = v0 :: V1 := by
    cases hh : v.toList with
    | nil => exact absurd hh hV
    | cons a b => exact ⟨a, b, rfl⟩
  have htw : (key.toList ++ ':' :: ' ' :: v.toList).takeWhile
      (fun c => c ≠ '#') = key.toList ++ ':' :: ' ' :: v.toList := by
    rw [List.takeWhile_eq_self_iff]
    intro c hc
    rcases List.mem_append.mp hc with h1 | h1
    · simp [(hk2 c h1).2.2]
    · rcases List.mem_cons.mp h1 with h2 | h2
      · subst h2; decide
      · rcases List.mem_cons.mp h2 with h3 | h3
        · subst h3; decide
        · simp [(hv2 c h3).2]
  have hrs : rstripChars (key.toList ++ ':' :: ' ' :: v.toList) =
      key.toList ++ ':' :: ' ' :: v.toList := by
    refine rstripChars_eq_self_of_last _ cl
      (W ++ ' ' :: ':' :: key.toList.reverse) ?_ hclw
    rw [List.reverse_append]
    rw [show (':' :: ' ' :: v.toList).reverse =
      v.toList.reverse ++ [' ', ':'] by simp]
    rw [hrev]
    simp
  have hk0w : (k0 = ' ') = False := by
    have := (hk2 k0 (by rw [hK]; exact List.mem_cons_self _ _)).1
    simp only [eq_iff_iff, iff_false]
    intro he
    rw [he] at this
    exact absurd this (by decide)
  have hdw : (key.toList ++ ':' :: ' ' :: v.toList).dropWhile
      (fun c => c = ' ') = key.toList ++ ':' :: ' ' :: v.toList := by
    rw [hK, List.cons_append, List.dropWhile_cons]
    simp [hk0w]
  have hcolon : (':' : Char) ∈ key.toList ++ ':' :: ' ' :: v.toList := by
    simp
  have hkp : (key.toList ++ ':' :: ' ' :: v.toList).takeWhile
      (fun c => c ≠ ':') = key.toList :=
    takeWhile_append_sat _ _ _ _
      (fun c hc => by simp [(hk2 c hc).2.1]) (by decide)
  have hvp : (key.toList ++ ':' :: ' ' :: v.toList).dropWhile
      (fun c => c ≠ ':') = ':' :: ' ' :: v.toList :=
    dropWhile_append_sat _ _ _ _
      (fun c hc => by simp [(hk2 c hc).2.1]) (by decide)
  have hstripk : stripChars key.toList = key.toList :=
    stripChars_eq_self_of_all _ (fun c hc => (hk2 c hc).1)
  have hstripv : stripChars (' ' :: v.toList) = v.toList := by
    rw [stripChars, List.dropWhile_cons]
    rw [if_pos (by decide)]
    rw [dropWhile_eq_self_of_all _ _ (fun c hc => (hv2 c hc).1)]
    exact rstripChars_eq_self_of_last _ cl W hrev hclw
  rw [parseLine, line_toList, htw, hrs]
  rw [if_neg (by rw [hK]; simp)]
  rw [hdw, if_pos hcolon, hkp, hvp]
  rw [Nat.sub_self]
  rw [show (':' :: ' ' :: v.toList).tail = ' ' :: v.toList from rfl]
  dsimp only
  rw [hstripk, hstripv]
  rfl

lemma processLine_topLevel (st : ScanState) (key v : String) (d : Nat)
    (hk1 : key.toList ≠ [])
    (hk2 : ∀ c ∈ key.toList, c.isWhitespace = false ∧ c ≠ ':' ∧ c ≠ '#')
    (hv2 : ∀ c ∈ v.toList, c.isWhitespace = false ∧ c ≠ '#')
    (hnum : numLitDecimals v = some d) :
    processLine st (key ++ ": " ++ v) =
      ([], DecMap.insert st.2 (key, none) d) := by
  have hV : v.toList ≠ [] := numLitDecimals_ne_nil v d hnum
  have hvne : ¬ (v = "") := by
    intro he
    apply hV
    rw [he]
    rfl
  rw [processLine, parseLine_topLevel key v d hk1 hk2 hv2 hnum]
  dsimp only
  have hst : st.1.dropWhile (fun p => 0 ≤ p.1) = [] := by
    rw [List.dropWhile_eq_nil_iff]
    intro x _
    simp
  rw [hst, if_neg hvne, hnum]
  rfl

lemma scan_preserve (post : List String) (key : String) (d : Nat) :
    ∀ (st : List (Nat × String)) (m : DecMap),
    (∀ l ∈ post, lineKey l ≠ some key) → m (key, none) = some d →
    ((post.foldl processLine (st, m)).2) (key, none) = some d := by
  induction post with
  | nil => intro st m _ hm; exact hm
  | cons l t ih =>
    intro st m hl hm
    rw [List.foldl_cons]
    have hstep : (processLine (st, m) l).2 (key, none) = some d := by
      rw [processLine]
      cases hp : parseLine l with
      | skipLine => exact hm
      | entry indent k vv =>
        dsimp only
        by_cases hv : vv = ""
        · rw [if_pos hv]; exact hm
        · rw [if_neg hv]
          cases hnum : numLitDecimals vv with
          | none => exact hm
          | some dd =>
            cases hlast : (st.dropWhile (fun p => indent ≤ p.1)).getLast? with
            | some bottom =>
              show DecMap.insert m (bottom.2, some k) dd (key, none) = some d
              rw [DecMap.insert, if_neg (by simp)]
              exact hm
            | none =>
              have hk : k ≠ key := by
                have hthis := hl l (List.mem_cons_self _ _)
                rw [lineKey, hp] at hthis
                exact fun he => hthis (by rw [he])
              show DecMap.insert m (k, none) dd (key, none) = some d
              rw [DecMap.insert, if_neg (by simp [Ne.symm hk])]
              exact hm
    exact ih (processLine (st, m) l).1 (processLine (st, m) l).2
      (fun l2 h2 => hl l2 (List.mem_cons_of_mem _ h2)) hstep

lemma parseLine_mappingStart (parent : String)
    (hp1 : parent.toList ≠ [])
    (hp2 : ∀ c ∈ parent.toList, c.isWhitespace = false ∧ c ≠ ':' ∧ c ≠ '#') :
    parseLine (parent ++ ":") = LineForm.entry 0 parent "" := by
  obtain ⟨p0, P1, hP⟩ : ∃ p0 P1, parent.toList = p0 :: P1 := by
    cases hh : parent.toList with
    | nil => exact absurd hh hp1
    | cons a b => exact ⟨a, b, rfl⟩
  have hL : (parent ++ ":").toList = parent.toList ++ ':' :: [] := by
    show (parent ++ ":").data = parent.data ++ ':' :: []
    rw [String.data_append]
  have htw : (parent.toList ++ ':' :: []).takeWhile (fun c => c ≠ '#') =
      parent.toList ++ ':' :: [] := by
    rw [List.takeWhile_eq_self_iff]
    intro c hc
    rcases List.mem_append.mp hc with h1 | h1
    · simp [(hp2 c h1).2.2]
    · rcases List.mem_cons.mp h1 with h2 | h2
      · subst h2; decide
      · exact absurd h2 (List.not_mem_nil c)
  have hrs : rstripChars (parent.toList ++ ':' :: []) =
      parent.toList ++ ':' :: [] := by
    refine rstripChars_eq_self_of_last _ ':' parent.toList.reverse ?_
      (by decide)
    simp
  have hp0w : (p0 = ' ') = False := by
    have hw := (hp2 p0 (by rw [hP]; exact List.mem_cons_self _ _)).1
    simp only [eq_iff_iff, iff_false]
    intro he
    rw [he] at hw
    exact absurd hw (by decide)
  have hdw : (parent.toList ++ ':' :: []).dropWhile (fun c => c = ' ') =
      parent.toList ++ ':' :: [] := by
    rw [hP, List.cons_append, List.dropWhile_cons]
    simp [hp0w]
  have hkp : (parent.toList ++ ':' :: []).takeWhile (fun c => c ≠ ':') =
      parent.toList :=
    takeWhile_append_sat _ _ _ _
      (fun c hc => by simp [(hp2 c hc).2.1]) (by decide)
  have hvp : (parent.toList ++ ':' :: []).dropWhile (fun c => c ≠ ':') =
      ':' :: [] :=
    dropWhile_append_sat _ _ _ _
      (fun c hc => by simp [(hp2 c hc).2.1]) (by decide)
  have hstripp : stripChars parent.toList = parent.toList :=
    stripChars_eq_self_of_all _ (fun c hc => (hp2 c hc).1)
  rw [parseLine, hL, htw, hrs]
  rw [if_neg (by rw [hP]; simp)]
  rw [hdw, if_pos (by simp), hkp, hvp]
  rw [Nat.sub_self]
  dsimp only
  rw [hstripp]
  rfl

lemma indent_toList (key v : String) :
    ("  " ++ key ++ ": " ++ v).toList =
      ' ' :: ' ' :: (key.toList ++ ':' :: ' ' :: v.toList) := by
  show ((("  " ++ key) ++ ": ") ++ v).data = _
  rw [String.data_append, String.data_append, String.data_append]
  rw [show ("  " : String).data = [' ', ' '] from rfl,
    show (": " : String).data = [':', ' '] from rfl]
  simp

lemma parseLine_nestedScalar (key v : String) (d : Nat)
    (hk1 : key.toList ≠ [])
    (hk2 : ∀ c ∈ key.toList, c.isWhitespace = false ∧ c ≠ ':' ∧ c ≠ '#')
    (hv2 : ∀ c ∈ v.toList, c.isWhitespace = false ∧ c ≠ '#')
    (hnum : numLitDecimals v = some d) :
    parseLine ("  " ++ key ++ ": " ++ v) = LineForm.entry 2 key v := by
  have hV : v.toList ≠ [] := numLitDecimals_ne_nil v d hnum
  obtain ⟨cl, W, hrev⟩ : ∃ cl W, v.toList.reverse = cl :: W := by
    cases hh : v.toList.reverse with
    | nil => exact absurd (by simpa using congrArg List.reverse hh) hV
    | cons a b => exact ⟨a, b, rfl⟩
  have hclw : cl.isWhitespace = false := by
    refine (hv2 cl ?_).1
    rw [← List.mem_reverse, hrev]
    exact List.mem_cons_self _ _
  obtain ⟨k0, K1, hK⟩ : ∃ k0 K1, key.toList = k0 :: K1 := by
    cases hh : key.toList with
    | nil => exact absurd hh hk1
    | cons a b => exact ⟨a, b, rfl⟩
  have htw : (' ' :: ' ' :: (key.toList ++ ':' :: ' ' :: v.toList)).takeWhile
      (fun c => c ≠ '#') =
      ' ' :: ' ' :: (key.toList ++ ':' :: ' ' :: v.toList) := by
    rw [List.takeWhile_eq_self_iff]
    intro c hc
    rcases List.mem_cons.mp hc with h0 | h0
    · subst h0; decide
    rcases List.mem_cons.mp h0 with h0a | h0a
    · subst h0a; decide
    rcases List.mem_append.mp h0a with h1 | h1
    · simp [(hk2 c h1).2.2]
    · rcases List.mem_cons.mp h1 with h2 | h2
      · subst h2; decide
      · rcases List.mem_cons.mp h2 with h3 | h3
        · subst h3; decide
        · simp [(hv2 c h3).2]
  have hrs : rstripChars
      (' ' :: ' ' :: (key.toList ++ ':' :: ' ' :: v.toList)) =
      ' ' :: ' ' :: (key.toList ++ ':' :: ' ' :: v.toList) := by
    refine rstripChars_eq_self_of_last _ cl
      (W ++ ' ' :: ':' :: key.toList.reverse ++ [' ', ' ']) ?_ hclw
    rw [show (' ' :: ' ' :: (key.toList ++ ':' :: ' ' :: v.toList)).reverse =
      (key.toList ++ ':' :: ' ' :: v.toList).reverse ++ [' ', ' '] by simp]
    rw [List.reverse_append]
    rw [show (':' :: ' ' :: v.toList).reverse =
      v.toList.reverse ++ [' ', ':'] by simp]
    rw [hrev]
    simp
  have hk0w : (k0 = ' ') = False := by
    have hw := (hk2 k0 (by rw [hK]; exact List.mem_cons_self _ _)).1
    simp only [eq_iff_iff, iff_false]
    intro he
    rw [he] at hw
    exact absurd hw (by decide)
  have hdw : (' ' :: ' ' :: (key.toList ++ ':' :: ' ' :: v.toList)).dropWhile
      (fun c => c = ' ') = key.toList ++ ':' :: ' ' :: v.toList := by
    rw [List.dropWhile_cons, if_pos (by decide), List.dropWhile_cons,
      if_pos (by decide)]
    rw [hK, List.cons_append, List.dropWhile_cons]
    simp [hk0w]
  have hcolon : (':' : Char) ∈
      key.toList ++ ':' :: ' ' :: v.toList := by simp
  have hkp : (key.toList ++ ':' :: ' ' :: v.toList).takeWhile
      (fun c => c ≠ ':') = key.toList :=
    takeWhile_append_sat _ _ _ _
      (fun c hc => by simp [(hk2 c hc).2.1]) (by decide)
  have hvp : (key.toList ++ ':' :: ' ' :: v.toList).dropWhile
      (fun c => c ≠ ':') = ':' :: ' ' :: v.toList :=
    dropWhile_append_sat _ _ _ _
      (fun c hc => by simp [(hk2 c hc).2.1]) (by decide)
  have hstripk : stripChars key.toList = key.toList :=
    stripChars_eq_self_of_all _ (fun c hc => (hk2 c hc).1)
  have hstripv : stripChars (' ' :: v.toList) = v.toList := by
    rw [stripChars, List.dropWhile_cons]
    rw [if_pos (by decide)]
    rw [dropWhile_eq_self_of_all _ _ (fun c hc => (hv2 c hc).1)]
    exact rstripChars_eq_self_of_last _ cl W hrev hclw
  have hlen : (' ' :: ' ' :: (key.toList ++ ':' :: ' ' :: v.toList)).length -
      (key.toList ++ ':' :: ' ' :: v.toList).length = 2 := by
    simp
    omega
  rw [parseLine, indent_toList, htw, hrs]
  rw [if_neg (by simp)]
  rw [hdw, if_pos hcolon, hkp, hvp]
  rw [hlen]
  rw [show (':' :: ' ' :: v.toList).tail = ' ' :: v.toList from rfl]
  dsimp only
  rw [hstripk, hstripv]
  rfl

lemma processLine_mappingStart (st : ScanState) (parent : String)
    (hp1 : parent.toList ≠ [])
    (hp2 : ∀ c ∈ parent.toList, c.isWhitespace = false ∧ c ≠ ':' ∧ c ≠ '#') :
    processLine st (parent ++ ":") = ([(0, parent)], st.2) := by
  rw [processLine, parseLine_mappingStart parent hp1 hp2]
  dsimp only
  have hst : st.1.dropWhile (fun p => 0 ≤ p.1) = [] := by
    rw [List.dropWhile_eq_nil_iff]
    intro x _
    simp
  rw [hst, if_pos rfl]

lemma processLine_nestedScalar (p0 : String) (m : DecMap)
    (key v : String) (d : Nat)
    (hk1 : key.toList ≠ [])
    (hk2 : ∀ c ∈ key.toList, c.isWhitespace = false ∧ c ≠ ':' ∧ c ≠ '#')
    (hv2 : ∀ c ∈ v.toList, c.isWhitespace = false ∧ c ≠ '#')
    (hnum : numLitDecimals v = some d) :
    processLine ([(0, p0)], m) ("  " ++ key ++ ": " ++ v) =
      ([(0, p0)], DecMap.insert m (p0, some key) d) := by
  have hV : v.toList ≠ [] := numLitDecimals_ne_nil v d hnum
  have hvne : ¬ (v = "") := by
    intro he
    apply hV
    rw [he]
    rfl
  rw [processLine, parseLine_nestedScalar key v d hk1 hk2 hv2 hnum]
  dsimp only
  rw [show ([((0 : Nat), p0)].dropWhile (fun p => 2 ≤ p.1)) = [(0, p0)] by
    rw [List.dropWhile_cons]; simp]
  rw [if_neg hvne, hnum]
  rfl

lemma scan_preserve_nested (post : List String) (pk key : String) (d : Nat) :
    ∀ (st : List (Nat × String)) (m : DecMap),
    (∀ l ∈ post, lineKey l ≠ some key) → m (pk, some key) = some d →
    ((post.foldl processLine (st, m)).2) (pk, some key) = some d := by
  induction post with
  | nil => intro st m _ hm; exact hm
  | cons l t ih =>
    intro st m hl hm
    rw [List.foldl_cons]
    have hstep : (processLine (st, m) l).2 (pk, some key) = some d := by
      rw [processLine]
      cases hp : parseLine l with
      | skipLine => exact hm
      | entry indent k vv =>
        dsimp only
        by_cases hv : vv = ""
        · rw [if_pos hv]; exact hm
        · rw [if_neg hv]
          cases hnum : numLitDecimals vv with
          | none => exact hm
          | some dd =>
            have hk : k ≠ key := by
              have hthis := hl l (List.mem_cons_self _ _)
              rw [lineKey, hp] at hthis
              exact fun he => hthis (by rw [he])
            cases hlast : (st.dropWhile (fun p => indent ≤ p.1)).getLast? with
            | some bottom =>
              show DecMap.insert m (bottom.2, some k) dd (pk, some key) = some d
              rw [DecMap.insert, if_neg (by simp [Ne.symm hk])]
              exact hm
            | none =>
              show DecMap.insert m (k, none) dd (pk, some key) = some d
              rw [DecMap.insert, if_neg (by simp)]
              exact hm
    exact ih (processLine (st, m) l).1 (processLine (st, m) l).2
      (fun l2 h2 => hl l2 (List.mem_cons_of_mem _ h2)) hstep

/-- C9: the precision scan round-trips authored decimal precision.  A
top-level line "key: value" whose value is a numeric literal with d
fractional digits (d = 2 for "1.50", d = 0 for "30") records
(key, None) ↦ d regardless of surrounding lines — an unindented scalar
line empties the nesting stack — and a nested "parent:" / "  key: value"
block records (parent, key) ↦ d; in both cases, as long as no later line
reuses the key, `get_decimals` returns exactly d.  A field recorded
nowhere yields the default 2, and a (variable, subkey) pair with no
specific record falls back to the (variable, None) entry. -/
theorem decimals_round_trip :
    (∀ (pre post : List String) (key v : String) (d : Nat),
      key.toList ≠ [] →
      (∀ c ∈ key.toList, c.isWhitespace = false ∧ c ≠ ':' ∧ c ≠ '#') →
      (∀ c ∈ v.toList, c.isWhitespace = false ∧ c ≠ '#') →
      numLitDecimals v = some d →
      (∀ l ∈ post, lineKey l ≠ some key) →
      get_decimals (scanLines (pre ++ (key ++ ": " ++ v) :: post)) key none
        = d) ∧
    (∀ (pre post : List String) (parent key v : String) (d : Nat),
      parent.toList ≠ [] →
      (∀ c ∈ parent.toList, c.isWhitespace = false ∧ c ≠ ':' ∧ c ≠ '#') →
      key.toList ≠ [] →
      (∀ c ∈ key.toList, c.isWhitespace = false ∧ c ≠ ':' ∧ c ≠ '#') →
      (∀ c ∈ v.toList, c.isWhitespace = false ∧ c ≠ '#') →
      numLitDecimals v = some d →
      (∀ l ∈ post, lineKey l ≠ some key) →
      get_decimals (scanLines (pre ++ (parent ++ ":") ::
        ("  " ++ key ++ ": " ++ v) :: post)) parent (some key) = d) ∧
    (∀ (m : DecMap) (x : String) (sub : Option String),
      m (x, sub) = none → m (x, none) = none → get_decimals m x sub = 2) ∧
    (∀ (m : DecMap) (x : String) (sub : Option String),
      m (x, sub) = none →
      get_decimals m x sub = get_decimals m x none) ∧
    numLitDecimals "1.50" = some 2 ∧ numLitDecimals "30" = some 0 := by
  refine ⟨?_, ?_, ?_, ?_, by decide, by decide⟩
  · intro pre post key v d hk1 hk2 hv2 hnum hpost
    rw [scanLines, List.foldl_append, List.foldl_cons]
    rw [processLine_topLevel _ key v d hk1 hk2 hv2 hnum]
    have hres := scan_preserve post key d []
      (DecMap.insert (List.foldl processLine ([], DecMap.empty) pre).2
        (key, none) d)
      hpost (by rw [DecMap.insert, if_pos rfl])
    rw [get_decimals, hres]
  · intro pre post parent key v d hp1 hp2 hk1 hk2 hv2 hnum hpost
    rw [scanLines, List.foldl_append, List.foldl_cons, List.foldl_cons]
    rw [processLine_mappingStart _ parent hp1 hp2]
    rw [processLine_nestedScalar parent _ key v d hk1 hk2 hv2 hnum]
    have hres := scan_preserve_nested post parent key d [(0, parent)]
      (DecMap.insert (List.foldl processLine ([], DecMap.empty) pre).2
        (parent, some key) d)
      hpost (by rw [DecMap.insert, if_pos rfl])
    rw [get_decimals, hres]
  · intro m x sub h1 h2
    rw [get_decimals, h1, h2]
  · intro m x sub h1
    simp only [get_decimals, h1]
    cases m (x, none) with
    | none => rfl
    | some dd => rfl

/-- Witness for `decimals_round_trip`: the literal "1.50" authored for key
"x" at top level yields `get_decimals = 2`, and a nested "a: 0.25" under
"net:" yields `get_decimals net a = 2`. -/
theorem decimals_round_trip_witness :
    (("x" : String).toList ≠ [] ∧
     (∀ c ∈ ("x" : String).toList,
        c.isWhitespace = false ∧ c ≠ ':' ∧ c ≠ '#') ∧
     (∀ c ∈ ("1.50" : String).toList, c.isWhitespace = false ∧ c ≠ '#') ∧
     numLitDecimals "1.50" = some 2 ∧
     (∀ l ∈ ["y: 7"], lineKey l ≠ some "x")) ∧
    get_decimals (scanLines (["a: 1", "b:", "  c: 2.5"] ++
      ("x" ++ ": " ++ "1.50") :: ["y: 7"])) "x" none = 2 ∧
    get_decimals (scanLines (["q: 3"] ++ ("net" ++ ":") ::
      ("  " ++ "a" ++ ": " ++ "0.25") :: ["z: 1"])) "net" (some "a") = 2 :=
  ⟨⟨by decide, by decide, by decide, by decide, by decide⟩,
   decimals_round_trip.1 ["a: 1", "b:", "  c: 2.5"] ["y: 7"] "x" "1.50" 2
     (by decide) (by decide) (by decide) (by decide) (by decide),
   decimals_round_trip.2.1 ["q: 3"] ["z: 1"] "net" "a" "0.25" 2
     (by decide) (by decide) (by decide) (by decide) (by decide)
     (by decide) (by decide)⟩
